import Mathlib

/-!
Verification of the Neura audio-to-motion synchronization engine.

This file gives a shallow embedding, in Lean 4, of the core functions of the
Neura talking-avatar pipeline and proves (or refutes) the specification's
claims about them.  The embedded code comes from:

* `src/services/avatar/lipsync.py` — viseme table, phoneme→viseme lookup,
  motion-frame synthesis (`process_audio`), blend-shape computation and the
  cross-frame smoothing pass;
* `src/services/tts/alignment.py` — the estimated word/phoneme aligner
  (`_estimate_timings`, `get_phonemes`, `phonemes_to_visemes`);
* `src/backend/app/workers/tasks.py` — the render-job orchestrator
  (`video_generation_task`): its status/progress update sequence, the TTS
  fallback, and the Celery retry behaviour;
* `src/services/webrtc/stream.py` — the clock-paced frame-emission loop
  (`StreamManager._stream_response`).

Python floats are modelled as exact rationals (or reals where the source
uses `sin`/`sqrt`); machine-level rounding is outside the model.  Python's
`str` operations are modelled over Lean strings with ASCII case folding.
-/

/-! ## Python string helpers -/

/-- Python `str.lower()` (ASCII model). -/
def pyToLower (s : String) : String :=
  String.mk (s.data.map Char.toLower)

/-- Python `str.strip()`: remove leading and trailing whitespace. -/
def pyStrip (s : String) : String :=
  String.mk
    (((s.data.dropWhile Char.isWhitespace).reverse.dropWhile
        Char.isWhitespace).reverse)

/-- Character scan behind `pySplit`: collect maximal non-whitespace runs
(`acc` holds the current run, reversed). -/
def splitWsAux : List Char → List Char → List String
  | [], acc => if acc = [] then [] else [String.mk acc.reverse]
  | c :: cs, acc =>
    if c.isWhitespace then
      (if acc = [] then [] else [String.mk acc.reverse]) ++ splitWsAux cs []
    else splitWsAux cs (c :: acc)

/-- Python `str.split()` with no argument: split on whitespace runs and drop
empty pieces. -/
def pySplit (s : String) : List String :=
  splitWsAux s.data []

/-- Python `str.isalpha()`: non-empty and all characters alphabetic
(ASCII model). -/
def pyIsAlpha (s : String) : Bool :=
  s ≠ "" && s.data.all Char.isAlpha

/-! ## Viseme table (`src/services/avatar/lipsync.py`, `Viseme`) -/

/-- The closed set of visemes, from `class Viseme(str, Enum)`. -/
inductive Viseme where
  | SILENCE | PP | FF | TH | DD | KK | CH | SS | NN | RR
  | AA | EE | II | OO | UU
  deriving DecidableEq, Repr

/-- The six blend-shape channels every entry of `VISEME_BLEND_SHAPES` owns. -/
inductive Channel where
  | jawOpen | mouthOpen | mouthWide | mouthPucker | mouthSmile | lipPress
  deriving DecidableEq, Repr

/-- A blend-shape target vector: one value per channel (the dictionaries in
`VISEME_BLEND_SHAPES` all have exactly these six keys). -/
structure BlendShapes (α : Type) where
  jawOpen : α
  mouthOpen : α
  mouthWide : α
  mouthPucker : α
  mouthSmile : α
  lipPress : α
  deriving DecidableEq, Repr

/-- Channel projection of a blend-shape vector. -/
def BlendShapes.get {α : Type} (b : BlendShapes α) : Channel → α
  | .jawOpen => b.jawOpen
  | .mouthOpen => b.mouthOpen
  | .mouthWide => b.mouthWide
  | .mouthPucker => b.mouthPucker
  | .mouthSmile => b.mouthSmile
  | .lipPress => b.lipPress

/-- The static per-viseme blend-shape targets, transcribed from the
`VISEME_BLEND_SHAPES` dictionary in `lipsync.py` (fields in source order:
jawOpen, mouthOpen, mouthWide, mouthPucker, mouthSmile, lipPress). -/
def VISEME_BLEND_SHAPES : Viseme → BlendShapes ℚ
  | .SILENCE => ⟨0, 0, 0, 0, 0, 0⟩
  | .PP => ⟨0, 0, 1/10, 2/10, 0, 8/10⟩
  | .FF => ⟨1/10, 1/10, 2/10, 0, 1/10, 0⟩
  | .TH => ⟨2/10, 2/10, 2/10, 0, 0, 0⟩
  | .DD => ⟨3/10, 2/10, 2/10, 0, 1/10, 0⟩
  | .KK => ⟨4/10, 3/10, 2/10, 0, 0, 0⟩
  | .CH => ⟨3/10, 2/10, 0, 5/10, 0, 0⟩
  | .SS => ⟨2/10, 1/10, 4/10, 0, 3/10, 0⟩
  | .NN => ⟨2/10, 1/10, 2/10, 0, 0, 0⟩
  | .RR => ⟨3/10, 2/10, 0, 3/10, 0, 0⟩
  | .AA => ⟨8/10, 7/10, 4/10, 0, 0, 0⟩
  | .EE => ⟨4/10, 3/10, 6/10, 0, 5/10, 0⟩
  | .II => ⟨3/10, 2/10, 5/10, 0, 4/10, 0⟩
  | .OO => ⟨6/10, 5/10, 0, 6/10, 0, 0⟩
  | .UU => ⟨4/10, 3/10, 0, 7/10, 0, 0⟩

/-! ## Phoneme→viseme lookup (`lipsync.py`, `VisemeMapping`) -/

/-- The `PHONEME_TO_VISEME` dictionary of `VisemeMapping` (CMU phoneme set),
as an association list in source order. -/
def PHONEME_TO_VISEME : List (String × Viseme) :=
  [("P", .PP), ("B", .PP), ("M", .PP),
   ("F", .FF), ("V", .FF),
   ("TH", .TH), ("DH", .TH),
   ("T", .DD), ("D", .DD), ("L", .DD),
   ("N", .NN), ("NG", .NN),
   ("K", .KK), ("G", .KK),
   ("CH", .CH), ("JH", .CH), ("SH", .CH), ("ZH", .CH),
   ("S", .SS), ("Z", .SS),
   ("R", .RR),
   ("W", .UU), ("Y", .EE),
   ("H", .SILENCE), ("HH", .SILENCE),
   ("AA", .AA), ("AE", .AA), ("AH", .AA),
   ("AO", .OO), ("AW", .AA), ("AY", .AA),
   ("EH", .EE), ("ER", .RR), ("EY", .EE),
   ("IH", .II), ("IY", .II),
   ("OW", .OO), ("OY", .OO),
   ("UH", .UU), ("UW", .UU)]

/-- Normalization done by `VisemeMapping.get_viseme` before the lookup:
`''.join(c for c in phoneme.upper() if not c.isdigit())` — uppercase the
string, then strip the digit stress markers. -/
def normalize_phoneme (p : String) : String :=
  String.mk ((p.data.map Char.toUpper).filter (fun c => !c.isDigit))

/-- `VisemeMapping.get_viseme`: normalize, then
`PHONEME_TO_VISEME.get(phoneme, Viseme.SILENCE)`. -/
def get_viseme (p : String) : Viseme :=
  ((PHONEME_TO_VISEME).lookup (normalize_phoneme p)).getD Viseme.SILENCE

namespace Alignment

/-- The string-keyed `PHONEME_TO_VISEME` dictionary at the top of
`src/services/tts/alignment.py` (viseme ids are plain strings there),
transcribed in source order. -/
def PHONEME_TO_VISEME : List (String × String) :=
  [("", "sil"), ("sp", "sil"), ("spn", "sil"), ("SIL", "sil"),
   ("P", "PP"), ("B", "PP"), ("M", "PP"),
   ("p", "PP"), ("b", "PP"), ("m", "PP"),
   ("F", "FF"), ("V", "FF"),
   ("f", "FF"), ("v", "FF"),
   ("TH", "TH"), ("DH", "TH"),
   ("th", "TH"), ("dh", "TH"),
   ("T", "DD"), ("D", "DD"), ("N", "DD"), ("L", "DD"),
   ("t", "DD"), ("d", "DD"), ("n", "DD"), ("l", "DD"),
   ("S", "SS"), ("Z", "SS"),
   ("s", "SS"), ("z", "SS"),
   ("SH", "CH"), ("ZH", "CH"), ("CH", "CH"), ("JH", "CH"),
   ("sh", "CH"), ("zh", "CH"), ("ch", "CH"), ("jh", "CH"),
   ("K", "kk"), ("G", "kk"), ("NG", "kk"),
   ("k", "kk"), ("g", "kk"), ("ng", "kk"),
   ("HH", "kk"), ("H", "kk"),
   ("hh", "kk"), ("h", "kk"),
   ("R", "RR"), ("W", "ww"), ("Y", "CH"),
   ("r", "RR"), ("w", "ww"), ("y", "CH"),
   ("AA", "aa"), ("AE", "aa"), ("AH", "aa"), ("AO", "aa"), ("AW", "aa"), ("AY", "aa"),
   ("aa", "aa"), ("ae", "aa"), ("ah", "aa"), ("ao", "aa"), ("aw", "aa"), ("ay", "aa"),
   ("EH", "E"), ("ER", "E"), ("EY", "E"),
   ("eh", "E"), ("er", "E"), ("ey", "E"),
   ("IH", "I"), ("IY", "I"),
   ("ih", "I"), ("iy", "I"),
   ("OW", "O"), ("OY", "O"),
   ("ow", "O"), ("oy", "O"),
   ("UH", "U"), ("UW", "U"),
   ("uh", "U"), ("uw", "U")]

/-- The lookup performed inside `AudioAligner.phonemes_to_visemes`:
`PHONEME_TO_VISEME.get(phoneme, "sil")`. -/
def viseme_for (p : String) : String :=
  ((PHONEME_TO_VISEME).lookup p).getD "sil"

end Alignment

namespace Alignment

/-- One entry of the list returned by `AudioAligner.phonemes_to_visemes`
(a dict with keys `viseme`, `phoneme`, `start`, `end`, `blendShapes`; the
empty-phoneme fallback entry carries no `phoneme` key, modelled as `none`).
The dict key `end` is named `stop` here because `end` is reserved in Lean. -/
structure VisemeSpan where
  viseme : String
  phoneme : Option String
  start : ℚ
  stop : ℚ
  deriving DecidableEq, Repr

/-- `AlignedWord` from `alignment.py` (the estimated path always fills
`phonemes` and `visemes`, so they are plain fields here). -/
structure AlignedWord where
  word : String
  start : ℚ
  stop : ℚ
  confidence : ℚ
  phonemes : List String
  visemes : List VisemeSpan
  deriving DecidableEq, Repr

/-- `AlignedSegment` from `alignment.py`. -/
structure AlignedSegment where
  text : String
  start : ℚ
  stop : ℚ
  words : List AlignedWord
  deriving DecidableEq, Repr

/-- The digraph table of `AudioAligner._estimate_phonemes`. -/
def digraphs : List (String × String) :=
  [("th", "TH"), ("sh", "SH"), ("ch", "CH"), ("wh", "W"),
   ("ph", "F"), ("ng", "NG"), ("ck", "K"), ("qu", "KW")]

/-- The single-character vowel map of `AudioAligner._estimate_phonemes`. -/
def vowel_map : List (Char × String) :=
  [('a', "AA"), ('e', "EH"), ('i', "IY"), ('o', "OW"), ('u', "UW")]

/-- The single-character consonant map of `AudioAligner._estimate_phonemes`. -/
def consonant_map : List (Char × String) :=
  [('b', "B"), ('c', "K"), ('d', "D"), ('f', "F"), ('g', "G"),
   ('h', "HH"), ('j', "JH"), ('k', "K"), ('l', "L"), ('m', "M"),
   ('n', "N"), ('p', "P"), ('r', "R"), ('s', "S"), ('t', "T"),
   ('v', "V"), ('w', "W"), ('x', "KS"), ('y', "Y"), ('z', "Z")]

/-- The character scan of `AudioAligner._estimate_phonemes`: at each
position, first try a two-character digraph, then a vowel, then a consonant
(with `char.upper()` as the consonant-map default); other characters are
skipped. -/
def estimatePhonemesLoop : List Char → List String
  | [] => []
  | c1 :: c2 :: rest =>
    match digraphs.lookup (String.mk [c1, c2]) with
    | some code => code :: estimatePhonemesLoop rest
    | none =>
      (match vowel_map.lookup c1 with
       | some v => [v]
       | none =>
         if c1.isAlpha then [(consonant_map.lookup c1).getD (String.mk [c1.toUpper])]
         else []) ++ estimatePhonemesLoop (c2 :: rest)
  | [c] =>
    match vowel_map.lookup c with
    | some v => [v]
    | none =>
      if c.isAlpha then [(consonant_map.lookup c).getD (String.mk [c.toUpper])]
      else []

/-- `AudioAligner._estimate_phonemes`: rule-based phoneme estimation; returns
`["SIL"]` when the scan yields nothing. -/
def estimate_phonemes (word : String) : List String :=
  let ph := estimatePhonemesLoop (pyToLower word).data
  if ph = [] then ["SIL"] else ph

/-- `AudioAligner.get_phonemes` in the configuration where no
grapheme-to-phoneme model is loaded (`self._g2p is None`), which is the
fallback-alignment scenario: strip and lowercase the word, return `["SIL"]`
for empty or non-alphabetic input, otherwise rule-based estimation. -/
def get_phonemes (word : String) : List String :=
  let w := pyToLower (pyStrip word)
  if ¬ pyIsAlpha w then ["SIL"]
  else estimate_phonemes w

/-- The viseme-building loop of `AudioAligner.phonemes_to_visemes`: one span
per phoneme, each `time_per_phoneme` long, consecutive from `t0`. -/
def buildVisemes (tpp : ℚ) : List String → ℚ → List VisemeSpan
  | [], _ => []
  | p :: ps, t0 =>
    ⟨viseme_for p, some p, t0, t0 + tpp⟩ :: buildVisemes tpp ps (t0 + tpp)

/-- `AudioAligner.phonemes_to_visemes`: empty phoneme list gives one silence
span over the whole window, otherwise the window is divided evenly. -/
def phonemes_to_visemes (phonemes : List String) (start_time duration : ℚ) :
    List VisemeSpan :=
  if phonemes = [] then
    [⟨"sil", none, start_time, start_time + duration⟩]
  else
    buildVisemes (duration / phonemes.length) phonemes start_time

/-- The word loop of `AudioAligner._estimate_timings`: each word's slot is
`duration * (len(word) / total_chars)`, slots are consecutive, confidence is
0.7, and phonemes/visemes are attached. -/
def estimateWords (duration total_chars : ℚ) : List String → ℚ → List AlignedWord
  | [], _ => []
  | w :: ws, t0 =>
    let wd := duration * ((w.length : ℚ) / total_chars)
    { word := w, start := t0, stop := t0 + wd, confidence := 7/10,
      phonemes := get_phonemes w,
      visemes := phonemes_to_visemes (get_phonemes w) t0 wd }
      :: estimateWords duration total_chars ws (t0 + wd)

/-- `AudioAligner._estimate_timings(audio, text, sample_rate)`: the estimated
alignment used when no acoustic backend is available.  `audio_len` is
`len(audio)`. -/
def estimate_timings (audio_len : ℕ) (text : String) (sample_rate : ℕ) :
    List AlignedSegment :=
  let duration : ℚ := (audio_len : ℚ) / (sample_rate : ℚ)
  let words := pySplit text
  if words = [] then []
  else
    let tc : ℕ := (words.map String.length).sum
    let total_chars : ℚ := if tc = 0 then 1 else (tc : ℚ)
    [{ text := text, start := 0, stop := duration,
       words := estimateWords duration total_chars words 0 }]

end Alignment

/-! ## Motion-timeline duration (`lipsync.py`, `LipSyncProcessor.process_audio`) -/

/-- A word-timing dict as consumed by `LipSyncProcessor.process_audio`
(keys `word`, `start`, `end`; `end` is named `stop`, a Lean keyword). -/
structure WordTiming (α : Type) where
  word : String
  start : α
  stop : α
  deriving DecidableEq, Repr

/-- The duration computation of `process_audio` (lipsync.py lines 280-290):
with word timings present, the duration is the maximum `end` over all
timings; otherwise `len(audio_data) / sample_rate`; then
`duration = max(duration, 0.1)`. -/
def lipsync_duration {α : Type} [LinearOrderedField α] (audio_len sample_rate : ℕ)
    (wts : List (WordTiming α)) : α :=
  let d : α :=
    match wts with
    | [] => (audio_len : α) / (sample_rate : α)
    | w :: ws => ws.foldl (fun m x => max m x.stop) w.stop
  max d (1/10)

/-- Modelled from the spec's words, for comparison with `lipsync_duration`:
"Determine total duration as `max(last word's end, audio_length/sample_rate)`,
floored at a minimum (e.g. 0.1s)". -/
def spec_duration (audio_len sample_rate : ℕ) (wts : List (WordTiming ℚ)) : ℚ :=
  max (max ((wts.getLast?.map WordTiming.stop).getD 0)
        ((audio_len : ℚ) / (sample_rate : ℚ))) (1/10)

/-! ## Render-job orchestrator (`src/backend/app/workers/tasks.py`,
`video_generation_task`) -/

namespace Tasks

/-- Job status strings used by `video_generation_task` and the job API. -/
inductive JStatus where
  | pending | queued | processing | completed | failed | cancelled
  deriving DecidableEq, Repr

/-- The observable job-record fields the task writes: `status`, `progress`,
and the `duration` recorded in `job.result` on completion. -/
structure JobState where
  status : JStatus
  progress : ℚ
  result_duration : Option ℚ
  deriving DecidableEq, Repr

/-- One job-record write performed by `video_generation_task`.
`setCompleted d` is the completion block (lines 681-699): `status =
"completed"`, `progress = 1.0`, `result = {..., duration: audio_duration}`. -/
inductive Upd where
  | setStatus (s : JStatus)
  | setProgress (p : ℚ)
  | setCompleted (dur : ℚ)
  deriving DecidableEq, Repr

/-- Effect of one write on the job record. -/
def applyUpd (st : JobState) : Upd → JobState
  | .setStatus s => { st with status := s }
  | .setProgress p => { st with progress := p }
  | .setCompleted dur =>
    { status := .completed, progress := 1, result_duration := some dur }

/-- The sequence of job-record writes of one successful run of
`video_generation_task`, in source order: status `processing` (line 382),
progress 0.1 (line 431), 0.3 (line 515), 0.4 (line 522), 0.5 (line 571, only
on the primary avatar-render path — the render fallback skips it), 0.8
(line 618), 0.9 (line 625), then the completion block (lines 681-699) with
the recorded `audio_duration`. -/
def successTrace (avatarPrimary : Bool) (audio_duration : ℚ) : List Upd :=
  [.setStatus .processing, .setProgress (1/10), .setProgress (3/10),
   .setProgress (4/10)]
  ++ (if avatarPrimary then [.setProgress (1/2)] else [])
  ++ [.setProgress (8/10), .setProgress (9/10), .setCompleted audio_duration]

/-- A failing run: the exception interrupts the pipeline after some prefix of
the success writes, and the handler (lines 708-719) writes `status =
"failed"` (progress is left as it was). -/
def failTrace (avatarPrimary : Bool) (audio_duration : ℚ) (k : ℕ) : List Upd :=
  (successTrace avatarPrimary audio_duration).take k ++ [.setStatus .failed]

/-- One execution attempt of `video_generation_task`: either it runs to
completion or it raises after `k` of the success writes. -/
inductive Attempt where
  | success (avatarPrimary : Bool) (audio_duration : ℚ)
  | failure (avatarPrimary : Bool) (audio_duration : ℚ) (k : ℕ)
  deriving DecidableEq, Repr

/-- Job-record writes of an attempt. -/
def attemptTrace : Attempt → List Upd
  | .success b d => successTrace b d
  | .failure b d k => failTrace b d k

/-- Well-formedness of a failing attempt: the exception strikes before the
completion block (an attempt that performed every write is a success). -/
def attemptWf : Attempt → Prop
  | .success _ _ => True
  | .failure b d k => k < (successTrace b d).length

/-- The terminal status an attempt writes last. -/
def finalStatus : Attempt → JStatus
  | .success _ _ => .completed
  | .failure _ _ _ => .failed

/-- The job-record history along a write sequence, starting from `s0`. -/
def statesFrom (s0 : JobState) (t : List Upd) : List JobState :=
  t.scanl applyUpd s0

/-- Celery re-execution (lines 734-738): when an attempt raises,
`self.retry` re-queues `video_generation_task` for the *same* job id, so a
second attempt's writes are applied to the same job record after the
first's. -/
def retryRun (a1 a2 : Attempt) : List Upd := attemptTrace a1 ++ attemptTrace a2


/-- The TTS-fallback estimated duration (tasks.py line 488):
`duration = len(script) / 15` — about 15 characters per second. -/
def fallback_duration (script : String) : ℚ := (script.length : ℚ) / 15

/-- The word loop of the TTS fallback (lines 502-510): consecutive slots of
equal width `wd` starting at `t0`. -/
def buildFallbackTimings (wd : ℚ) : List String → ℚ → List (WordTiming ℚ)
  | [], _ => []
  | w :: ws, t0 => ⟨w, t0, t0 + wd⟩ :: buildFallbackTimings wd ws (t0 + wd)

/-- The fallback word timings built when `call_tts_service` raises
(lines 499-510): `words = script.split()`, `word_duration = duration /
len(words) if words else duration`, then one evenly sized slot per word from
time 0. -/
def fallback_word_timings (script : String) : List (WordTiming ℚ) :=
  let duration := fallback_duration script
  let words := pySplit script
  let word_duration :=
    if words.length = 0 then duration else duration / (words.length : ℚ)
  buildFallbackTimings word_duration words 0


end Tasks


/-! ## Motion-frame synthesis (`lipsync.py`, `LipSyncProcessor`) -/

namespace LipSync

/-- The digraph table of `LipSyncProcessor._estimate_phonemes` (it differs
from the aligner's: no `qu`, and `wh`/`ph`/`ck` map as shown). -/
def digraphs : List (String × String) :=
  [("th", "TH"), ("ch", "CH"), ("sh", "SH"), ("ng", "NG"),
   ("wh", "W"), ("ph", "F"), ("ck", "K")]

/-- The vowel map of `LipSyncProcessor._estimate_phonemes`. -/
def vowel_map : List (Char × String) :=
  [('a', "AA"), ('e', "EH"), ('i', "IY"), ('o', "OW"), ('u', "UW")]

/-- The consonant map of `LipSyncProcessor._estimate_phonemes` (note
`x → K`, unlike the aligner's `x → KS`). -/
def consonant_map : List (Char × String) :=
  [('b', "B"), ('c', "K"), ('d', "D"), ('f', "F"), ('g', "G"),
   ('h', "HH"), ('j', "JH"), ('k', "K"), ('l', "L"), ('m', "M"),
   ('n', "N"), ('p', "P"), ('q', "K"), ('r', "R"), ('s', "S"),
   ('t', "T"), ('v', "V"), ('w', "W"), ('x', "K"), ('y', "Y"), ('z', "Z")]

/-- The character scan of `LipSyncProcessor._estimate_phonemes`: digraph
first, then vowel, then consonant; characters in neither map are skipped. -/
def estimatePhonemesLoop : List Char → List String
  | [] => []
  | c1 :: c2 :: rest =>
    match digraphs.lookup (String.mk [c1, c2]) with
    | some code => code :: estimatePhonemesLoop rest
    | none =>
      (match vowel_map.lookup c1 with
       | some v => [v]
       | none =>
         match consonant_map.lookup c1 with
         | some c => [c]
         | none => []) ++ estimatePhonemesLoop (c2 :: rest)
  | [c] =>
    match vowel_map.lookup c with
    | some v => [v]
    | none =>
      match consonant_map.lookup c with
      | some cc => [cc]
      | none => []

/-- `LipSyncProcessor._estimate_phonemes`: returns `["AA"]` when the scan
yields nothing. -/
def estimate_phonemes (word : String) : List String :=
  let ph := estimatePhonemesLoop (pyToLower word).data
  if ph = [] then ["AA"] else ph

/-- `LipSyncProcessor._word_to_phonemes` with no grapheme-to-phoneme model
loaded (`self._g2p_model is None`): strip, return `["SIL"]` for input with
no alphabetic character, otherwise clean to lowercase letters and estimate. -/
def word_to_phonemes (word : String) : List String :=
  let w := pyStrip word
  if w = "" ∨ ¬ w.data.any Char.isAlpha then ["SIL"]
  else estimate_phonemes (String.mk ((pyToLower w).data.filter Char.isAlpha))

/-- One lip-sync frame dict as produced by `process_audio` (lines 315-325). -/
structure Frame (α : Type) where
  frame : ℕ
  timestamp : α
  viseme : Viseme
  intensity : α
  amplitude : α
  mouth_open : α
  mouth_wide : α
  jaw_open : α
  blend_shapes : BlendShapes α
  deriving DecidableEq, Repr

/-- `LipSyncProcessor._calculate_blend_shapes`: scale every channel of the
viseme's static target by `intensity`; `jawOpen` and `mouthOpen`
additionally by `0.5 + 0.5 * amplitude`. -/
def calculate_blend_shapes {α : Type} [LinearOrderedField α] (v : Viseme)
    (intensity amplitude : α) : BlendShapes α :=
  let base := VISEME_BLEND_SHAPES v
  { jawOpen := (base.jawOpen : α) * intensity * (1/2 + 1/2 * amplitude),
    mouthOpen := (base.mouthOpen : α) * intensity * (1/2 + 1/2 * amplitude),
    mouthWide := (base.mouthWide : α) * intensity,
    mouthPucker := (base.mouthPucker : α) * intensity,
    mouthSmile := (base.mouthSmile : α) * intensity,
    lipPress := (base.lipPress : α) * intensity }

/-- The slice `values[max(0, i-w) : min(len, i+w+1)]` taken by
`smooth_array` inside `_smooth_frames` (natural subtraction models the
`max(0, ·)`, `List.take` the `min(len, ·)`). -/
def windowSlice {α : Type} (w : ℕ) (vals : List α) (i : ℕ) : List α :=
  (vals.take (i + w + 1)).drop (i - w)

/-- `np.mean` of a list. -/
def listMean {α : Type} [LinearOrderedField α] (l : List α) : α :=
  l.sum / (l.length : α)

/-- `smooth_array`: the moving average of `vals` over the window. -/
def smoothVals {α : Type} [LinearOrderedField α] (w : ℕ) (vals : List α) :
    List α :=
  (List.range vals.length).map (fun i => listMean (windowSlice w vals i))

/-- Positional update of every frame (the in-place write-back loops of
`_smooth_frames`). -/
def smoothApply {α : Type} (g : ℕ → Frame α → Frame α) :
    ℕ → List (Frame α) → List (Frame α)
  | _, [] => []
  | i, f :: fs => g i f :: smoothApply g (i + 1) fs

/-- `LipSyncProcessor._smooth_frames` (default `smoothing_window = 0.04`):
fewer than 3 frames are returned unchanged; otherwise `window_size =
max(1, int(0.04 * fps))` and the keys `mouth_open`, `mouth_wide`,
`jaw_open`, `intensity` and every blend-shape channel are replaced by their
moving averages (each key is smoothed from the original values, so the
parallel formulation below matches the source's key-by-key loop). -/
def smooth_frames {α : Type} [LinearOrderedField α] (frames : List (Frame α))
    (fps : ℕ) : List (Frame α) :=
  if frames.length < 3 then frames
  else
    let window_size := max 1 (4 * fps / 100)
    let mo := smoothVals window_size (frames.map Frame.mouth_open)
    let mw := smoothVals window_size (frames.map Frame.mouth_wide)
    let jo := smoothVals window_size (frames.map Frame.jaw_open)
    let it := smoothVals window_size (frames.map Frame.intensity)
    let bjo := smoothVals window_size (frames.map (fun f => f.blend_shapes.jawOpen))
    let bmo := smoothVals window_size (frames.map (fun f => f.blend_shapes.mouthOpen))
    let bmw := smoothVals window_size (frames.map (fun f => f.blend_shapes.mouthWide))
    let bmp := smoothVals window_size (frames.map (fun f => f.blend_shapes.mouthPucker))
    let bms := smoothVals window_size (frames.map (fun f => f.blend_shapes.mouthSmile))
    let blp := smoothVals window_size (frames.map (fun f => f.blend_shapes.lipPress))
    smoothApply (fun i f =>
      { f with
        mouth_open := mo.getD i f.mouth_open,
        mouth_wide := mw.getD i f.mouth_wide,
        jaw_open := jo.getD i f.jaw_open,
        intensity := it.getD i f.intensity,
        blend_shapes :=
          { jawOpen := bjo.getD i f.blend_shapes.jawOpen,
            mouthOpen := bmo.getD i f.blend_shapes.mouthOpen,
            mouthWide := bmw.getD i f.blend_shapes.mouthWide,
            mouthPucker := bmp.getD i f.blend_shapes.mouthPucker,
            mouthSmile := bms.getD i f.blend_shapes.mouthSmile,
            lipPress := blp.getD i f.blend_shapes.lipPress } })
      0 frames

/-- `LipSyncProcessor._get_viseme_at_time`: find the word whose interval
contains the timestamp; inside it, index the phoneme by linear
interpolation and shape the intensity with the sine envelope
`0.6 + 0.4 * sin(progress * π)`.  Real-valued because of `np.sin`. -/
noncomputable def get_viseme_at_time (word_timings : List (WordTiming ℝ))
    (timestamp : ℝ) : Viseme × ℝ :=
  match word_timings.find?
      (fun wt => decide (wt.start ≤ timestamp) && decide (timestamp < wt.stop)) with
  | none => (Viseme.SILENCE, 0)
  | some wt =>
    let word_duration := wt.stop - wt.start
    if word_duration ≤ 0 then (Viseme.SILENCE, 0)
    else
      let word_progress := (timestamp - wt.start) / word_duration
      let phonemes := word_to_phonemes wt.word
      if phonemes = [] then (Viseme.AA, 1/2)
      else
        let n := phonemes.length
        let phoneme_idx : ℤ := min ⌊word_progress * (n : ℝ)⌋ ((n : ℤ) - 1)
        let phoneme := phonemes.getD phoneme_idx.toNat "SIL"
        let phoneme_progress := word_progress * (n : ℝ) - (phoneme_idx : ℝ)
        (get_viseme phoneme,
          6/10 + 4/10 * Real.sin (phoneme_progress * Real.pi))

/-- `LipSyncProcessor._get_amplitude_at_time`: RMS of the frame's audio
window, gain-boosted by 4 and clipped to 1. -/
noncomputable def get_amplitude_at_time (audio_data : List ℝ)
    (timestamp duration : ℝ) (sample_rate : ℕ) : ℝ :=
  let start_sample := (⌊timestamp * (sample_rate : ℝ)⌋).toNat
  let end_sample := (⌊(timestamp + duration) * (sample_rate : ℝ)⌋).toNat
  if audio_data.length ≤ start_sample then 0
  else
    let segment := (audio_data.take (min end_sample audio_data.length)).drop
      start_sample
    if segment.length = 0 then 0
    else
      let rms := Real.sqrt ((segment.map (fun x => x ^ 2)).sum /
        (segment.length : ℝ))
      min (rms * 4) 1

/-- `LipSyncProcessor.process_audio`: duration (via `lipsync_duration`),
`total_frames = int(duration * fps)`, one frame per index with viseme,
envelope intensity, window amplitude and blend shapes, then the cross-frame
smoothing pass. -/
noncomputable def process_audio (audio_data : List ℝ) (sample_rate : ℕ)
    (word_timings : List (WordTiming ℝ)) (fps : ℕ) : List (Frame ℝ) :=
  let duration := lipsync_duration audio_data.length sample_rate word_timings
  let total_frames := (⌊duration * (fps : ℝ)⌋).toNat
  let frame_duration : ℝ := 1 / (fps : ℝ)
  let frames := (List.range total_frames).map (fun (frame_idx : ℕ) =>
    let timestamp := (frame_idx : ℝ) * frame_duration
    let vi := get_viseme_at_time word_timings timestamp
    let amplitude := get_amplitude_at_time audio_data timestamp frame_duration
      sample_rate
    let bs := calculate_blend_shapes vi.1 vi.2 amplitude
    { frame := frame_idx, timestamp := timestamp, viseme := vi.1,
      intensity := vi.2, amplitude := amplitude,
      mouth_open := bs.mouthOpen * vi.2 * (1/2 + 1/2 * amplitude),
      mouth_wide := bs.mouthWide * vi.2,
      jaw_open := bs.jawOpen * vi.2,
      blend_shapes := bs })
  smooth_frames frames fps

end LipSync

/-! ## Live frame-emission pacing (`src/services/webrtc/stream.py`,
`StreamManager._stream_response`) -/

namespace Live

/-- `frame_interval = 1.0 / session.config.fps` (stream.py line 436). -/
def frame_interval (fps : ℕ) : ℚ := 1 / (fps : ℚ)

/-- The pacing computation after each frame is rendered and sent
(lines 476-479): `sleep_time = max(0, frame_interval - elapsed)`; the loop
then sleeps exactly that long (the `if sleep_time > 0` guard skips only a
zero sleep). -/
def sleep_time (fps : ℕ) (elapsed : ℚ) : ℚ :=
  max 0 (frame_interval fps - elapsed)

end Live

/-- The safety property of C7: a frame's intensity and every blend-shape
channel lie in the unit interval. -/
def FrameBounded (f : LipSync.Frame ℝ) : Prop :=
  (0 ≤ f.intensity ∧ f.intensity ≤ 1) ∧
  ∀ ch, 0 ≤ f.blend_shapes.get ch ∧ f.blend_shapes.get ch ≤ 1

/-! ## Theorems -/

/-- C4: the phoneme-to-viseme lookup is pure, total and deterministic — it is
embedded as a total Lean function, so totality and determinism are intrinsic;
this theorem states the remaining contract: a recognized (normalized) code
yields its table entry, and any unrecognized code yields the silence viseme,
for both the `lipsync.py` lookup (`VisemeMapping.get_viseme`) and the
`alignment.py` lookup used by `phonemes_to_visemes`. -/
theorem get_viseme_total_unknown_silence (p : String) :
    (∀ v, (PHONEME_TO_VISEME).lookup (normalize_phoneme p) = some v →
      get_viseme p = v) ∧
    ((PHONEME_TO_VISEME).lookup (normalize_phoneme p) = none →
      get_viseme p = Viseme.SILENCE) ∧
    ((Alignment.PHONEME_TO_VISEME).lookup p = none →
      Alignment.viseme_for p = "sil") := by
  refine ⟨fun v hv => ?_, fun h => ?_, fun h => ?_⟩
  · simp [get_viseme, hv]
  · simp [get_viseme, h]
  · simp [Alignment.viseme_for, h]

/-- Witness for C4: the code `"ZZZ1"` is in neither table (its normalized form
`"ZZZ"` is unknown), and both lookups map it to silence. -/
theorem get_viseme_total_unknown_silence_witness :
    get_viseme "ZZZ1" = Viseme.SILENCE ∧ Alignment.viseme_for "ZZZ1" = "sil" :=
  ⟨(get_viseme_total_unknown_silence "ZZZ1").2.1 (by decide),
   (get_viseme_total_unknown_silence "ZZZ1").2.2 (by decide)⟩

/-- Counterexample for C1: with a 2-second audio buffer (44100 samples at
22050 Hz) and a single word ending at 0.5 s, `process_audio` takes the
duration to be 0.5 s — the audio length is ignored whenever word timings are
present — whereas the spec's formula gives 2 s. -/
theorem lipsync_duration_ne_spec_duration :
    lipsync_duration 44100 22050 ([⟨"hi", 0, 1/2⟩] : List (WordTiming ℚ)) = 1/2 ∧
    spec_duration 44100 22050 [⟨"hi", 0, 1/2⟩] = 2 ∧
    lipsync_duration 44100 22050 ([⟨"hi", 0, 1/2⟩] : List (WordTiming ℚ)) ≠
      spec_duration 44100 22050 [⟨"hi", 0, 1/2⟩] := by
  have h1 : lipsync_duration 44100 22050 [(⟨"hi", 0, 1/2⟩ : WordTiming ℚ)] = 1/2 := by
    simp only [lipsync_duration, List.foldl_nil]
    exact max_eq_left (by norm_num)
  have h2 : spec_duration 44100 22050 [⟨"hi", 0, 1/2⟩] = 2 := by
    unfold spec_duration
    rw [show (([⟨"hi", 0, 1/2⟩] : List (WordTiming ℚ)).getLast?.map
        WordTiming.stop).getD 0 = 1/2 from rfl]
    rw [show ((44100:ℕ) : ℚ) / ((22050:ℕ) : ℚ) = 2 by norm_num]
    rw [max_eq_right (by norm_num : (1/2:ℚ) ≤ 2),
      max_eq_left (by norm_num : (1/10:ℚ) ≤ 2)]
  exact ⟨h1, h2, by rw [h1, h2]; norm_num⟩

/-- Helper: over a sequence whose `end` values are non-decreasing, the
running-max fold of `process_audio`'s duration computation returns the last
word's `end`. -/
theorem foldl_max_stop_sorted (ws : List (WordTiming ℚ)) :
    ∀ w : WordTiming ℚ,
      List.Chain' (fun a b => a.stop ≤ b.stop) (w :: ws) →
      ws.foldl (fun m x => max m x.stop) w.stop
        = ((w :: ws).getLast (List.cons_ne_nil w ws)).stop := by
  induction ws with
  | nil => intro w _; simp
  | cons x xs ih =>
    intro w hc
    rw [List.chain'_cons] at hc
    have h1 : w.stop ≤ x.stop := hc.1
    have h2 := ih x hc.2
    simp only [List.foldl_cons]
    rw [max_eq_right h1, h2]
    simp [List.getLast]

/-- C1 amended: the minimum floor of 0.1 s is real, but the two duration
sources are not combined with `max`: with word timings present the duration
is `max(max end over the timings, 0.1)` — for an ordered sequence, the last
word's end — and the audio length is ignored; only with no word timings is it
`max(audio_length/sample_rate, 0.1)`. -/
theorem lipsync_duration_amended (audio_len sample_rate : ℕ)
    (wts : List (WordTiming ℚ)) :
    (wts = [] →
      lipsync_duration audio_len sample_rate wts
        = max ((audio_len : ℚ) / (sample_rate : ℚ)) (1/10)) ∧
    (∀ w ws, wts = w :: ws →
      List.Chain' (fun a b => a.stop ≤ b.stop) wts →
      lipsync_duration audio_len sample_rate wts
        = max (((w :: ws).getLast (List.cons_ne_nil w ws)).stop) (1/10)) ∧
    (1/10 : ℚ) ≤ lipsync_duration audio_len sample_rate wts := by
  refine ⟨fun h => by simp [lipsync_duration, h], fun w ws h hc => ?_, ?_⟩
  · subst h
    simp only [lipsync_duration]
    rw [foldl_max_stop_sorted ws w hc]
  · cases wts <;> simp [lipsync_duration]

/-- Witness for C1 amended: concrete evaluations on both branches — no word
timings (duration from audio, floored) and a sorted two-word sequence
(duration from the last word's end, audio ignored). -/
theorem lipsync_duration_amended_witness :
    lipsync_duration 2205 22050 ([] : List (WordTiming ℚ)) = 1/10 ∧
    lipsync_duration 441000 22050
      ([⟨"a", 0, 1⟩, ⟨"b", 1, 3⟩] : List (WordTiming ℚ)) = 3 := by
  constructor
  · rw [(lipsync_duration_amended 2205 22050 []).1 rfl]
    rw [max_eq_right (by norm_num)]
  · rw [(lipsync_duration_amended 441000 22050 [⟨"a", 0, 1⟩, ⟨"b", 1, 3⟩]).2.1
      ⟨"a", 0, 1⟩ [⟨"b", 1, 3⟩] rfl (by norm_num [List.chain'_cons])]
    rw [show ([(⟨"a", 0, 1⟩ : WordTiming ℚ), ⟨"b", 1, 3⟩].getLast
      (List.cons_ne_nil _ _)).stop = 3 from rfl, max_eq_left (by norm_num)]

namespace Tasks

/-- Counterexample for C2: a run in which the first attempt fails after the
0.4-progress write and Celery retries (lines 734-738).  State 5 has status
`failed`; the retry's first write (line 382) moves the job back to
`processing` (state 6), its progress then drops from 0.4 back to 0.1
(state 7), and the job later reaches `completed` — a second terminal
transition.  So a job does leave the `failed` state, and progress decreases
while the job is active. -/
theorem job_terminal_state_left_on_retry :
    let d : JobState := ⟨.pending, 0, none⟩
    let sts := statesFrom ⟨.pending, 0, none⟩
      (retryRun (.failure true 2 4) (.success true 2))
    (sts.getD 5 d).status = .failed ∧
    (sts.getD 6 d).status = .processing ∧
    (sts.getD 7 d).progress < (sts.getD 5 d).progress ∧
    (sts.getLast?.map JobState.status) = some .completed := by
  refine ⟨rfl, rfl, ?_, rfl⟩
  norm_num [statesFrom, retryRun, attemptTrace, failTrace, successTrace,
    applyUpd, List.scanl]

/-- C2 amended: within a single execution attempt of
`video_generation_task`, the invariant holds — every intermediate status is
`processing`, exactly one terminal transition occurs and it is the final
write (`completed` on success, `failed` on an interrupted run), and progress
is monotonically non-decreasing (from any starting progress at most 0.1, the
first progress the attempt writes).  Across Celery retries of a failed
attempt the claimed invariant fails (see the counterexample). -/
theorem video_generation_attempt_invariant (a : Attempt) (s0 : JobState)
    (hwf : attemptWf a) :
    ((statesFrom s0 (attemptTrace a)).drop 1).map JobState.status
      = List.replicate ((attemptTrace a).length - 1) JStatus.processing
          ++ [finalStatus a]
    ∧ (s0.progress ≤ 1/10 →
        List.Chain' (fun x y => x.progress ≤ y.progress)
          (statesFrom s0 (attemptTrace a))) := by
  cases a with
  | success b d =>
    cases b <;>
      refine ⟨rfl, fun h => ?_⟩ <;>
      · simp [statesFrom, attemptTrace, successTrace, applyUpd, List.scanl,
          List.chain'_cons]
        all_goals try norm_num
        all_goals exact h
  | failure b d k =>
    cases b <;> simp only [attemptWf, successTrace] at hwf <;>
      norm_num at hwf <;> interval_cases k <;>
      refine ⟨rfl, fun h => ?_⟩ <;>
      · simp [statesFrom, attemptTrace, failTrace, successTrace, applyUpd,
          List.scanl, List.chain'_cons]
        all_goals try norm_num
        all_goals exact h

/-- Witness for C2 amended: a fresh pending job run through one successful
attempt — seven `processing` states, a final `completed`, and non-decreasing
progress. -/
theorem video_generation_attempt_invariant_witness :
    attemptWf (.success true 2) ∧
    ((statesFrom ⟨.pending, 0, none⟩
        (attemptTrace (.success true 2))).drop 1).map JobState.status
      = List.replicate 7 JStatus.processing ++ [JStatus.completed] ∧
    List.Chain' (fun x y => x.progress ≤ y.progress)
      (statesFrom ⟨.pending, 0, none⟩ (attemptTrace (.success true 2))) := by
  have h := video_generation_attempt_invariant (.success true 2)
    ⟨.pending, 0, none⟩ trivial
  exact ⟨trivial, h.1, h.2 (by norm_num)⟩

end Tasks

namespace Tasks

/-- Helper: length of the fallback word-timing list. -/
theorem buildFallbackTimings_length (wd : ℚ) :
    ∀ (ws : List String) (t0 : ℚ),
      (buildFallbackTimings wd ws t0).length = ws.length := by
  intro ws
  induction ws with
  | nil => intro t0; rfl
  | cons w ws ih => intro t0; simp [buildFallbackTimings, ih]

/-- Helper: the i-th fallback slot is `[t0 + i·wd, t0 + (i+1)·wd]`. -/
theorem buildFallbackTimings_getElem (wd : ℚ) :
    ∀ (ws : List String) (t0 : ℚ) (i : ℕ), i < ws.length →
      (buildFallbackTimings wd ws t0)[i]?
        = some ⟨ws.getD i "", t0 + i * wd, t0 + (i + 1) * wd⟩ := by
  intro ws
  induction ws with
  | nil => intro t0 i hi; simp at hi
  | cons w ws ih =>
    intro t0 i hi
    cases i with
    | zero =>
      simp only [buildFallbackTimings, List.getElem?_cons_zero,
        List.getD_cons_zero]
      norm_num
    | succ j =>
      have hj : j < ws.length := by simpa using hi
      simp only [buildFallbackTimings, List.getElem?_cons_succ,
        List.getD_cons_succ]
      rw [ih (t0 + wd) j hj]
      congr 2 <;> push_cast <;> ring

/-- C3: when the speech-synthesis call fails after all retries,
`video_generation_task` estimates the duration as `len(script)/15`, builds
one evenly sized word timing per word of the script — contiguous from time
0 and covering exactly the estimated duration — and continues: the
subsequent writes are the normal pipeline ones, so the attempt ends
`completed` with `result.duration` equal to the estimated fallback
duration. -/
theorem tts_fallback_completes (script : String) (h : pySplit script ≠ []) :
    (fallback_word_timings script).length = (pySplit script).length
    ∧ (∀ i, i < (pySplit script).length →
        (fallback_word_timings script)[i]?
          = some ⟨(pySplit script).getD i "",
              (i : ℚ) * (fallback_duration script / (pySplit script).length),
              ((i : ℚ) + 1) *
                (fallback_duration script / (pySplit script).length)⟩)
    ∧ (fallback_word_timings script).getLast?.map WordTiming.stop
        = some (fallback_duration script)
    ∧ (∀ (s0 : JobState) (b : Bool),
        (statesFrom s0
            (attemptTrace (.success b (fallback_duration script)))).getLast?.map
          (fun st => (st.status, st.result_duration))
          = some (JStatus.completed, some (fallback_duration script))) := by
  have hn : (pySplit script).length ≠ 0 := by
    simpa [List.length_eq_zero] using h
  have hlen : (fallback_word_timings script).length
      = (pySplit script).length := by
    simp [fallback_word_timings, buildFallbackTimings_length]
  have hget : ∀ i, i < (pySplit script).length →
      (fallback_word_timings script)[i]?
        = some ⟨(pySplit script).getD i "",
            (i : ℚ) * (fallback_duration script / (pySplit script).length),
            ((i : ℚ) + 1) *
              (fallback_duration script / (pySplit script).length)⟩ := by
    intro i hi
    unfold fallback_word_timings
    simp only [if_neg hn]
    rw [buildFallbackTimings_getElem _ _ _ i hi]
    congr 2 <;> ring
  refine ⟨hlen, hget, ?_, ?_⟩
  · have hpos : 0 < (pySplit script).length := Nat.pos_of_ne_zero hn
    rw [List.getLast?_eq_getElem?, hlen]
    rw [hget ((pySplit script).length - 1) (by omega)]
    simp only [Option.map_some']
    congr 1
    have hc : ((((pySplit script).length - 1 : ℕ)) : ℚ)
        = ((pySplit script).length : ℚ) - 1 := by
      rw [Nat.cast_sub hpos]; simp
    rw [hc, show (((pySplit script).length : ℚ) - 1) + 1
      = ((pySplit script).length : ℚ) by ring]
    field_simp
  · intro s0 b
    cases b <;> rfl

/-- Witness for C3: the two-word script `"hello world"` has estimated
duration 11/15 s and two fallback word timings. -/
theorem tts_fallback_completes_witness :
    pySplit "hello world" ≠ [] ∧
    (fallback_word_timings "hello world").length = 2 ∧
    (fallback_word_timings "hello world").getLast?.map WordTiming.stop
      = some (fallback_duration "hello world") := by
  have h := tts_fallback_completes "hello world" (by decide)
  exact ⟨by decide, by rw [h.1]; decide, h.2.2.1⟩

end Tasks

/-- C9: in the live frame-emission loop, the post-frame sleep is
`max(0, interval - elapsed)` with `interval = 1/fps`; it is never negative,
and the total time spent on a frame (`elapsed + sleep`) is exactly the frame
interval whenever rendering fits inside it (and just `elapsed` otherwise), so
emission is clock-paced at the session's fixed interval under variable
render cost. -/
theorem stream_sleep_clock_paced (fps : ℕ) (elapsed : ℚ) :
    0 ≤ Live.sleep_time fps elapsed ∧
    elapsed + Live.sleep_time fps elapsed
      = max elapsed (Live.frame_interval fps) := by
  refine ⟨le_max_left 0 _, ?_⟩
  rcases le_total elapsed (Live.frame_interval fps) with h | h
  · rw [Live.sleep_time, max_eq_right (by linarith), max_eq_right h]; ring
  · rw [Live.sleep_time, max_eq_left (by linarith), max_eq_left h]; ring

/-- C8: blend-shape computation scales every channel of the viseme's static
target by `intensity`, and the amplitude-sensitive channels `jawOpen` and
`mouthOpen` additionally by `0.5 + 0.5 * amplitude`; all other channels are
scaled by intensity only. -/
theorem calculate_blend_shapes_scaling (v : Viseme) (intensity amplitude : ℚ)
    (ch : Channel) :
    (LipSync.calculate_blend_shapes v intensity amplitude).get ch
      = if ch = Channel.jawOpen ∨ ch = Channel.mouthOpen then
          (VISEME_BLEND_SHAPES v).get ch * intensity
            * (1/2 + 1/2 * amplitude)
        else (VISEME_BLEND_SHAPES v).get ch * intensity := by
  cases ch <;>
    simp [LipSync.calculate_blend_shapes, BlendShapes.get, Rat.cast_id]

/-- Helper: `smoothApply` preserves length. -/
theorem smoothApply_length {α : Type}
    (g : ℕ → LipSync.Frame α → LipSync.Frame α) :
    ∀ (l : List (LipSync.Frame α)) (i0 : ℕ),
      (LipSync.smoothApply g i0 l).length = l.length := by
  intro l
  induction l with
  | nil => intro i0; rfl
  | cons f fs ih => intro i0; simp [LipSync.smoothApply, ih]

/-- Helper: element `j` of `smoothApply g i0 l` is `g (i0 + j)` of element
`j` of `l`. -/
theorem smoothApply_getElem {α : Type}
    (g : ℕ → LipSync.Frame α → LipSync.Frame α) :
    ∀ (l : List (LipSync.Frame α)) (i0 j : ℕ),
      (LipSync.smoothApply g i0 l)[j]? = (l[j]?).map (g (i0 + j)) := by
  intro l
  induction l with
  | nil => intro i0 j; simp [LipSync.smoothApply]
  | cons f fs ih =>
    intro i0 j
    cases j with
    | zero => simp [LipSync.smoothApply]
    | succ jj =>
      simp only [LipSync.smoothApply, List.getElem?_cons_succ]
      rw [ih (i0 + 1) jj, show i0 + 1 + jj = i0 + (jj + 1) by omega]

/-- C10: the cross-frame smoothing pass returns a sequence of the same
length, and each frame's `frame` index, `timestamp`, `viseme` and
`amplitude` are unchanged (the pass rewrites only `mouth_open`,
`mouth_wide`, `jaw_open`, `intensity` and the blend-shape channels). -/
theorem smooth_frames_length_and_untouched (frames : List (LipSync.Frame ℚ))
    (fps : ℕ) (i : ℕ) :
    (LipSync.smooth_frames frames fps).length = frames.length
    ∧ (LipSync.smooth_frames frames fps)[i]?.map LipSync.Frame.frame
        = frames[i]?.map LipSync.Frame.frame
    ∧ (LipSync.smooth_frames frames fps)[i]?.map LipSync.Frame.timestamp
        = frames[i]?.map LipSync.Frame.timestamp
    ∧ (LipSync.smooth_frames frames fps)[i]?.map LipSync.Frame.viseme
        = frames[i]?.map LipSync.Frame.viseme
    ∧ (LipSync.smooth_frames frames fps)[i]?.map LipSync.Frame.amplitude
        = frames[i]?.map LipSync.Frame.amplitude := by
  unfold LipSync.smooth_frames
  split
  · exact ⟨rfl, rfl, rfl, rfl, rfl⟩
  · rw [smoothApply_length, smoothApply_getElem]
    refine ⟨rfl, ?_, ?_, ?_, ?_⟩ <;> cases frames[i]? <;> rfl

namespace Alignment

/-- Helper: every token emitted by the whitespace scan is non-empty. -/
theorem splitWsAux_mem_ne_nil :
    ∀ (cs : List Char) (acc : List Char) (w : String),
      w ∈ splitWsAux cs acc → w ≠ "" := by
  intro cs
  induction cs with
  | nil =>
    intro acc w h
    unfold splitWsAux at h
    split at h
    · simp at h
    · next hacc =>
      rw [List.mem_singleton] at h
      subst h
      intro he
      have : acc.reverse = [] := congrArg String.data he
      exact hacc (by simpa using this)
  | cons c cs ih =>
    intro acc w h
    unfold splitWsAux at h
    split at h
    · rw [List.mem_append] at h
      rcases h with h | h
      · split at h
        · simp at h
        · next hacc =>
          rw [List.mem_singleton] at h
          subst h
          intro he
          have : acc.reverse = [] := congrArg String.data he
          exact hacc (by simpa using this)
      · exact ih [] w h
    · exact ih (c :: acc) w h

/-- Helper: every word produced by Python `split()` is non-empty. -/
theorem pySplit_mem_pos (s : String) (w : String) (h : w ∈ pySplit s) :
    0 < w.length := by
  have hne := splitWsAux_mem_ne_nil s.data [] w h
  have hd : w.data ≠ [] := by
    intro hdata
    exact hne (by cases w; simpa [String.ext_iff] using hdata)
  show 0 < w.data.length
  exact List.length_pos.mpr hd

/-- Helper: the aligner's phoneme decomposition never returns an empty
list. -/
theorem get_phonemes_ne_nil (w : String) : get_phonemes w ≠ [] := by
  simp only [get_phonemes]
  split
  · simp
  · simp only [estimate_phonemes]
    split <;> simp_all

/-- Helper: `buildVisemes` produces one span per phoneme. -/
theorem buildVisemes_length (tpp : ℚ) :
    ∀ (ps : List String) (t0 : ℚ), (buildVisemes tpp ps t0).length = ps.length := by
  intro ps
  induction ps with
  | nil => intro t0; rfl
  | cons p ps ih => intro t0; simp [buildVisemes, ih]

/-- Helper: the i-th viseme span occupies `[t0 + i·tpp, t0 + (i+1)·tpp]`. -/
theorem buildVisemes_getElem (tpp : ℚ) :
    ∀ (ps : List String) (t0 : ℚ) (i : ℕ), i < ps.length →
      (buildVisemes tpp ps t0)[i]?
        = some ⟨viseme_for (ps.getD i ""), some (ps.getD i ""),
            t0 + i * tpp, t0 + (i + 1) * tpp⟩ := by
  intro ps
  induction ps with
  | nil => intro t0 i hi; simp at hi
  | cons p ps ih =>
    intro t0 i hi
    cases i with
    | zero =>
      simp only [buildVisemes, List.getElem?_cons_zero, List.getD_cons_zero]
      norm_num
    | succ j =>
      have hj : j < ps.length := by simpa using hi
      simp only [buildVisemes, List.getElem?_cons_succ, List.getD_cons_succ]
      rw [ih (t0 + tpp) j hj]
      congr 2 <;> push_cast <;> ring

/-- Helper: consecutive estimated words are contiguous
(`start_{i+1} = end_i`). -/
theorem estimateWords_chain (d tc : ℚ) :
    ∀ (ws : List String) (t0 : ℚ),
      List.Chain' (fun a b => b.start = a.stop) (estimateWords d tc ws t0) := by
  intro ws
  induction ws with
  | nil => intro t0; simp [estimateWords]
  | cons w ws ih =>
    intro t0
    rw [estimateWords, List.chain'_cons']
    refine ⟨?_, ih _⟩
    intro b hb
    cases ws with
    | nil => simp [estimateWords] at hb
    | cons w2 ws2 =>
      rw [estimateWords, List.head?_cons, Option.mem_some_iff] at hb
      subst hb
      rfl

/-- Helper: the shape of every estimated word: it is one of the input words,
its slot width is `duration * (len(word)/total_chars)`, its confidence is
0.7, and its phonemes/visemes come from `get_phonemes` and
`phonemes_to_visemes` over exactly its slot. -/
theorem estimateWords_mem (d tc : ℚ) :
    ∀ (ws : List String) (t0 : ℚ) (aw : AlignedWord),
      aw ∈ estimateWords d tc ws t0 →
      aw.word ∈ ws
      ∧ aw.stop = aw.start + d * ((aw.word.length : ℚ) / tc)
      ∧ aw.confidence = 7/10
      ∧ aw.phonemes = get_phonemes aw.word
      ∧ aw.visemes = phonemes_to_visemes (get_phonemes aw.word) aw.start
          (d * ((aw.word.length : ℚ) / tc)) := by
  intro ws
  induction ws with
  | nil => intro t0 aw h; simp [estimateWords] at h
  | cons w ws ih =>
    intro t0 aw h
    rw [estimateWords, List.mem_cons] at h
    rcases h with h | h
    · subst h
      exact ⟨List.mem_cons_self w ws, rfl, rfl, rfl, rfl⟩
    · obtain ⟨h1, h2⟩ := ih _ aw h
      exact ⟨List.mem_cons_of_mem w h1, h2⟩

end Alignment

/-- Counterexample for C5: with zero-length audio (`len(audio) = 0`) the
estimated duration is 0, every word slot degenerates to a point, and the
produced word timing has `end = start` — the claimed strict `end_i > start_i`
fails on the estimated-fallback path. -/
theorem estimate_timings_zero_audio_degenerate :
    ∃ seg ∈ Alignment.estimate_timings 0 "hi" 22050,
      ∃ w ∈ seg.words, ¬ w.start < w.stop := by
  simp only [Alignment.estimate_timings]
  rw [if_neg (by decide : ¬(pySplit "hi" = []))]
  refine ⟨_, List.mem_singleton_self _, ?_⟩
  simp only [Alignment.estimateWords]
  refine ⟨_, List.mem_cons_self _ _, ?_⟩
  norm_num

/-- C5 amended: on the estimated-alignment path every word-timing sequence
is ordered and non-overlapping — `start_{i+1} = end_i` (so no gap is
negative) and `end_i ≥ start_i` always; the strict `end_i > start_i` holds
whenever the audio duration `len(audio)/sample_rate` is positive, but fails
for empty audio (see the counterexample). -/
theorem estimate_timings_ordered (audio_len : ℕ) (text : String)
    (sample_rate : ℕ) :
    ∀ seg ∈ Alignment.estimate_timings audio_len text sample_rate,
      (∀ w ∈ seg.words, w.start ≤ w.stop)
      ∧ List.Chain' (fun a b => b.start = a.stop) seg.words
      ∧ ((0 : ℚ) < (audio_len : ℚ) / (sample_rate : ℚ) →
          ∀ w ∈ seg.words, w.start < w.stop) := by
  intro seg hseg
  simp only [Alignment.estimate_timings] at hseg
  by_cases hw : pySplit text = []
  · rw [if_pos hw] at hseg
    simp at hseg
  · rw [if_neg hw, List.mem_singleton] at hseg
    subst hseg
    set tcn : ℕ := ((pySplit text).map String.length).sum with htcn
    have htc : (0 : ℚ) < (if tcn = 0 then (1 : ℚ) else (tcn : ℚ)) := by
      split
      · norm_num
      · next h0 => exact_mod_cast Nat.pos_of_ne_zero h0
    refine ⟨?_, Alignment.estimateWords_chain _ _ _ _, ?_⟩
    · intro w hwmem
      obtain ⟨_, hstop, _⟩ := Alignment.estimateWords_mem _ _ _ _ _ hwmem
      have hd : (0 : ℚ) ≤ (audio_len : ℚ) / (sample_rate : ℚ) :=
        div_nonneg (Nat.cast_nonneg _) (Nat.cast_nonneg _)
      have : (0 : ℚ) ≤ ((audio_len : ℚ) / (sample_rate : ℚ))
          * ((w.word.length : ℚ) / (if tcn = 0 then (1 : ℚ) else (tcn : ℚ))) :=
        mul_nonneg hd (div_nonneg (Nat.cast_nonneg _) (le_of_lt htc))
      rw [hstop]
      linarith
    · intro hdpos w hwmem
      obtain ⟨hmemw, hstop, _⟩ := Alignment.estimateWords_mem _ _ _ _ _ hwmem
      have hlen : (0 : ℚ) < (w.word.length : ℚ) := by
        exact_mod_cast Alignment.pySplit_mem_pos text w.word hmemw
      have : (0 : ℚ) < ((audio_len : ℚ) / (sample_rate : ℚ))
          * ((w.word.length : ℚ) / (if tcn = 0 then (1 : ℚ) else (tcn : ℚ))) :=
        mul_pos hdpos (div_pos hlen htc)
      rw [hstop]
      linarith

/-- Witness for C5 amended: a one-second two-character utterance — the
estimated timings are ordered, non-overlapping, and strictly
positive-width. -/
theorem estimate_timings_ordered_witness :
    ∃ seg ∈ Alignment.estimate_timings 22050 "hi" 22050,
      List.Chain' (fun a b => b.start = a.stop) seg.words
      ∧ ∀ w ∈ seg.words, w.start < w.stop := by
  have hform : ∃ s, Alignment.estimate_timings 22050 "hi" 22050 = [s] := by
    simp only [Alignment.estimate_timings]
    rw [if_neg (by decide : ¬(pySplit "hi" = []))]
    exact ⟨_, rfl⟩
  obtain ⟨s, hs⟩ := hform
  have hmem : s ∈ Alignment.estimate_timings 22050 "hi" 22050 := by
    rw [hs]; exact List.mem_singleton_self s
  have h := estimate_timings_ordered 22050 "hi" 22050 s hmem
  exact ⟨s, hmem, h.2.1, h.2.2 (by norm_num)⟩

/-- C6: with no acoustic backend and non-empty spoken text, the estimated
alignment splits the audio duration across words proportionally to character
count — each slot has width `duration * len(word)/total_chars`, slots are
contiguous from time 0 — every estimated word's confidence is 0.7, and the
phonemes inside each word split the word's slot evenly. -/
theorem estimate_timings_char_proportional (audio_len : ℕ) (text : String)
    (sample_rate : ℕ) (h : pySplit text ≠ []) :
    ∃ seg, Alignment.estimate_timings audio_len text sample_rate = [seg]
    ∧ (seg.words.head?.map Alignment.AlignedWord.start) = some 0
    ∧ List.Chain' (fun a b => b.start = a.stop) seg.words
    ∧ (∀ aw ∈ seg.words,
        aw.stop - aw.start
          = ((audio_len : ℚ) / (sample_rate : ℚ))
            * ((aw.word.length : ℚ)
              / ((((pySplit text).map String.length).sum : ℕ) : ℚ))
        ∧ aw.confidence = 7/10
        ∧ aw.phonemes ≠ []
        ∧ aw.visemes.length = aw.phonemes.length
        ∧ (∀ i, i < aw.phonemes.length →
            aw.visemes[i]?
              = some ⟨Alignment.viseme_for (aw.phonemes.getD i ""),
                  some (aw.phonemes.getD i ""),
                  aw.start + i * ((aw.stop - aw.start)
                    / (aw.phonemes.length : ℚ)),
                  aw.start + (i + 1) * ((aw.stop - aw.start)
                    / (aw.phonemes.length : ℚ))⟩)) := by
  have hsum0 : ((pySplit text).map String.length).sum ≠ 0 := by
    obtain ⟨w0, hw0⟩ := List.exists_mem_of_ne_nil _ h
    have h1 : 0 < w0.length := Alignment.pySplit_mem_pos text w0 hw0
    have h2 : w0.length ≤ ((pySplit text).map String.length).sum :=
      List.single_le_sum (fun b _ => Nat.zero_le b) _
        (List.mem_map_of_mem String.length hw0)
    omega
  have htc : (if ((pySplit text).map String.length).sum = 0 then (1 : ℚ)
      else ((((pySplit text).map String.length).sum : ℕ) : ℚ))
      = ((((pySplit text).map String.length).sum : ℕ) : ℚ) := if_neg hsum0
  simp only [Alignment.estimate_timings]
  rw [if_neg h, htc]
  refine ⟨_, rfl, ?_, Alignment.estimateWords_chain _ _ _ _, ?_⟩
  · obtain ⟨w0, ws0, hpw⟩ : ∃ w0 ws0, pySplit text = w0 :: ws0 := by
      cases hpw : pySplit text with
      | nil => exact absurd hpw h
      | cons a l => exact ⟨a, l, rfl⟩
    rw [hpw, Alignment.estimateWords]
    rfl
  · intro aw hmem
    obtain ⟨hwmem, hstop, hconf, hphon, hvis⟩ :=
      Alignment.estimateWords_mem _ _ _ _ _ hmem
    have hwidth : aw.stop - aw.start
        = ((audio_len : ℚ) / (sample_rate : ℚ))
          * ((aw.word.length : ℚ)
            / ((((pySplit text).map String.length).sum : ℕ) : ℚ)) := by
      rw [hstop]; ring
    have hpn := Alignment.get_phonemes_ne_nil aw.word
    refine ⟨hwidth, hconf, ?_, ?_, ?_⟩
    · rw [hphon]; exact hpn
    · rw [hvis, Alignment.phonemes_to_visemes, if_neg hpn,
        Alignment.buildVisemes_length, hphon]
    · intro i hi
      have hi' : i < (Alignment.get_phonemes aw.word).length := by
        rw [← hphon]; exact hi
      rw [hvis, Alignment.phonemes_to_visemes, if_neg hpn,
        Alignment.buildVisemes_getElem _ _ _ i hi', hwidth, hphon]

/-- Witness for C6: `"ab c"` with one second of audio — the amended facts
applied at a concrete non-empty script. -/
theorem estimate_timings_char_proportional_witness :
    pySplit "ab c" ≠ [] ∧
    ∃ seg, Alignment.estimate_timings 22050 "ab c" 22050 = [seg]
      ∧ (seg.words.head?.map Alignment.AlignedWord.start) = some 0
      ∧ ∀ aw ∈ seg.words, aw.confidence = 7/10 := by
  refine ⟨by decide, ?_⟩
  obtain ⟨seg, h1, h2, _, h4⟩ :=
    estimate_timings_char_proportional 22050 "ab c" 22050 (by decide)
  exact ⟨seg, h1, h2, fun aw hmem => (h4 aw hmem).2.1⟩

/-- Helper: every entry of the static viseme table lies in `[0, 1]`. -/
theorem viseme_blend_shapes_bounds (v : Viseme) (ch : Channel) :
    0 ≤ (VISEME_BLEND_SHAPES v).get ch ∧ (VISEME_BLEND_SHAPES v).get ch ≤ 1 := by
  cases v <;> cases ch <;>
    exact ⟨by norm_num [VISEME_BLEND_SHAPES, BlendShapes.get],
      by norm_num [VISEME_BLEND_SHAPES, BlendShapes.get]⟩

/-- Helper: with intensity and amplitude in `[0, 1]`, every computed
blend-shape channel stays in `[0, 1]`. -/
theorem calculate_blend_shapes_bounds (v : Viseme) (i a : ℝ)
    (hi0 : 0 ≤ i) (hi1 : i ≤ 1) (ha0 : 0 ≤ a) (ha1 : a ≤ 1) (ch : Channel) :
    0 ≤ (LipSync.calculate_blend_shapes v i a).get ch ∧
      (LipSync.calculate_blend_shapes v i a).get ch ≤ 1 := by
  obtain ⟨hb0, hb1⟩ := viseme_blend_shapes_bounds v ch
  have hf0 : (0 : ℝ) ≤ 1/2 + 1/2 * a := by linarith
  have hf1 : 1/2 + 1/2 * a ≤ 1 := by linarith
  cases ch <;>
    simp only [LipSync.calculate_blend_shapes, BlendShapes.get] at hb0 hb1 ⊢ <;>
    constructor <;>
    [skip; skip; skip; skip; skip; skip; skip; skip; skip; skip; skip; skip]
  all_goals
    first
    | exact mul_nonneg (mul_nonneg (by exact_mod_cast hb0) hi0) hf0
    | exact mul_le_one₀ (mul_le_one₀ (by exact_mod_cast hb1) hi0 hi1) hf0 hf1
    | exact mul_nonneg (by exact_mod_cast hb0) hi0
    | exact mul_le_one₀ (by exact_mod_cast hb1) hi0 hi1

/-- Helper: the RMS amplitude of any frame window lies in `[0, 1]`. -/
theorem get_amplitude_at_time_bounds (audio : List ℝ) (t d : ℝ) (sr : ℕ) :
    0 ≤ LipSync.get_amplitude_at_time audio t d sr ∧
      LipSync.get_amplitude_at_time audio t d sr ≤ 1 := by
  constructor <;>
  · simp only [LipSync.get_amplitude_at_time]
    split
    · norm_num
    · split
      · norm_num
      · first
        | exact le_min (mul_nonneg (Real.sqrt_nonneg _) (by norm_num))
            zero_le_one
        | exact min_le_right _ _

/-- Helper: the envelope intensity produced by `_get_viseme_at_time` lies in
`[0, 1]` — it is 0 outside words and for degenerate word durations, 0.5 for
an empty phoneme list, and `0.6 + 0.4·sin(progress·π)` with
`progress ∈ [0, 1)` otherwise. -/
theorem get_viseme_at_time_intensity_bounds (wts : List (WordTiming ℝ))
    (t : ℝ) :
    0 ≤ (LipSync.get_viseme_at_time wts t).2 ∧
      (LipSync.get_viseme_at_time wts t).2 ≤ 1 := by
  unfold LipSync.get_viseme_at_time
  cases hfind : wts.find?
      (fun wt => decide (wt.start ≤ t) && decide (t < wt.stop)) with
  | none => simp [hfind]
  | some wt =>
    have hpred := List.find?_some hfind
    rw [Bool.and_eq_true, decide_eq_true_eq, decide_eq_true_eq] at hpred
    obtain ⟨hts, htl⟩ := hpred
    simp only [hfind]
    split
    · norm_num
    · next hwd =>
      push_neg at hwd
      split
      · norm_num
      · next hph =>
        have hn : 0 < (LipSync.word_to_phonemes wt.word).length :=
          List.length_pos.mpr hph
        have hnR : (0:ℝ) < ((LipSync.word_to_phonemes wt.word).length : ℝ) := by
          exact_mod_cast hn
        set wp := (t - wt.start) / (wt.stop - wt.start) with hwp
        have hwp0 : 0 ≤ wp := div_nonneg (by linarith) (by linarith)
        have hwp1 : wp < 1 := (div_lt_one (by linarith)).mpr (by linarith)
        set nR : ℝ := ((LipSync.word_to_phonemes wt.word).length : ℝ)
        have h1 : wp * nR < nR := by nlinarith
        have hfloor_le : ⌊wp * nR⌋
            ≤ ((LipSync.word_to_phonemes wt.word).length : ℤ) - 1 := by
          have hlt : ⌊wp * nR⌋
              < ((LipSync.word_to_phonemes wt.word).length : ℤ) :=
            Int.floor_lt.mpr (by exact_mod_cast h1)
          omega
        rw [min_eq_left hfloor_le]
        have hpp0 : 0 ≤ wp * nR - (⌊wp * nR⌋ : ℝ) := by
          have := Int.floor_le (wp * nR); linarith
        have hpp1 : wp * nR - (⌊wp * nR⌋ : ℝ) ≤ 1 := by
          have := Int.lt_floor_add_one (wp * nR); linarith
        have hs0 : 0 ≤ Real.sin ((wp * nR - (⌊wp * nR⌋ : ℝ)) * Real.pi) :=
          Real.sin_nonneg_of_nonneg_of_le_pi
            (mul_nonneg hpp0 Real.pi_pos.le)
            (by nlinarith [Real.pi_pos])
        have hs1 : Real.sin ((wp * nR - (⌊wp * nR⌋ : ℝ)) * Real.pi) ≤ 1 :=
          Real.sin_le_one _
        constructor <;> · simp only; linarith

/-- Helper: the mean of a non-empty list of values in `[0, 1]` is in
`[0, 1]`. -/
theorem listMean_bounds (l : List ℝ) (hne : l ≠ [])
    (h : ∀ x ∈ l, 0 ≤ x ∧ x ≤ 1) :
    0 ≤ LipSync.listMean l ∧ LipSync.listMean l ≤ 1 := by
  have hlen : (0 : ℝ) < (l.length : ℝ) := by
    exact_mod_cast List.length_pos.mpr hne
  have hsum0 : 0 ≤ l.sum := List.sum_nonneg fun x hx => (h x hx).1
  have hsum1 : l.sum ≤ (l.length : ℝ) := by
    have := List.sum_le_card_nsmul l 1 fun x hx => (h x hx).2
    simpa [nsmul_eq_mul] using this
  unfold LipSync.listMean
  exact ⟨div_nonneg hsum0 hlen.le, (div_le_one hlen).mpr hsum1⟩

/-- Helper: window slices draw their elements from the original list. -/
theorem windowSlice_subset {α : Type} (w : ℕ) (vals : List α) (i : ℕ)
    (x : α) (hx : x ∈ LipSync.windowSlice w vals i) : x ∈ vals :=
  List.mem_of_mem_take (List.mem_of_mem_drop hx)

/-- Helper: the smoothing window around a valid index is non-empty. -/
theorem windowSlice_ne_nil {α : Type} (w : ℕ) (vals : List α) (i : ℕ)
    (hi : i < vals.length) : LipSync.windowSlice w vals i ≠ [] := by
  have hlen : (LipSync.windowSlice w vals i).length
      = (min (i + w + 1) vals.length) - (i - w) := by
    unfold LipSync.windowSlice
    rw [List.length_drop, List.length_take]
  intro hnil
  rw [hnil] at hlen
  simp only [List.length_nil] at hlen
  have h1 : i - w ≤ i := Nat.sub_le i w
  have h2 : i < min (i + w + 1) vals.length := lt_min (by omega) hi
  omega

/-- Helper: a smoothed value at a valid index is the window mean, and stays
in `[0, 1]` when the input values are in `[0, 1]`. -/
theorem smoothVals_getD_bounds (w : ℕ) (vals : List ℝ)
    (h : ∀ x ∈ vals, 0 ≤ x ∧ x ≤ 1) (i : ℕ) (hi : i < vals.length) (d : ℝ) :
    0 ≤ (LipSync.smoothVals w vals).getD i d ∧
      (LipSync.smoothVals w vals).getD i d ≤ 1 := by
  have heval : (LipSync.smoothVals w vals).getD i d
      = LipSync.listMean (LipSync.windowSlice w vals i) := by
    unfold LipSync.smoothVals
    rw [List.getD_eq_getElem?_getD, List.getElem?_map, List.getElem?_range hi]
    rfl
  rw [heval]
  exact listMean_bounds _ (windowSlice_ne_nil w vals i hi)
    (fun x hx => h x (windowSlice_subset w vals i x hx))

/-- Helper: membership in `smoothApply` comes from a positionally matching
member of the input list. -/
theorem smoothApply_mem {α : Type} (g : ℕ → LipSync.Frame α → LipSync.Frame α)
    (l : List (LipSync.Frame α)) (i0 : ℕ) (f : LipSync.Frame α)
    (hf : f ∈ LipSync.smoothApply g i0 l) :
    ∃ j, j < l.length ∧ ∃ orig, l[j]? = some orig ∧ f = g (i0 + j) orig := by
  obtain ⟨j, hj, hget⟩ := List.getElem_of_mem hf
  have hget2 : (LipSync.smoothApply g i0 l)[j]? = some f := by
    rw [List.getElem?_eq_getElem hj, hget]
  rw [smoothApply_getElem] at hget2
  rw [smoothApply_length] at hj
  obtain ⟨orig, horig, hfo⟩ := Option.map_eq_some'.mp hget2
  exact ⟨j, hj, orig, horig, hfo.symm⟩

/-- Helper: the cross-frame smoothing pass preserves the unit-interval
bounds on intensity and on every blend-shape channel. -/
theorem smooth_frames_bounded (frames : List (LipSync.Frame ℝ)) (fps : ℕ)
    (h : ∀ f ∈ frames, FrameBounded f) :
    ∀ f ∈ LipSync.smooth_frames frames fps, FrameBounded f := by
  intro f hf
  unfold LipSync.smooth_frames at hf
  split at hf
  · exact h f hf
  · obtain ⟨j, hj, orig, horig, hfo⟩ := smoothApply_mem _ _ _ _ hf
    have horigmem : orig ∈ frames := List.getElem?_mem horig
    have hmapint : ∀ x ∈ frames.map LipSync.Frame.intensity, 0 ≤ x ∧ x ≤ 1 := by
      intro x hx
      obtain ⟨f', hf', hfx⟩ := List.mem_map.mp hx
      rw [← hfx]
      exact (h f' hf').1
    have hmapch : ∀ ch : Channel,
        ∀ x ∈ frames.map (fun fr => fr.blend_shapes.get ch), 0 ≤ x ∧ x ≤ 1 := by
      intro ch x hx
      obtain ⟨f', hf', hfx⟩ := List.mem_map.mp hx
      rw [← hfx]
      exact (h f' hf').2 ch
    subst hfo
    constructor
    · simp only [Nat.zero_add]
      exact smoothVals_getD_bounds _ _ hmapint j
        (by rw [List.length_map]; exact hj) _
    · intro ch
      have hlenmap : 0 + j
          < (frames.map (fun fr => fr.blend_shapes.get ch)).length := by
        rw [List.length_map]; omega
      have hb := smoothVals_getD_bounds (max 1 (4 * fps / 100))
        (frames.map (fun fr => fr.blend_shapes.get ch)) (hmapch ch) (0 + j)
        hlenmap
      cases ch <;>
        · simp only [BlendShapes.get] at hb ⊢
          exact hb _

/-- C7: every frame of the motion-timeline output of `process_audio` — i.e.
after the cross-frame smoothing pass — has its intensity and every
blend-shape channel value in `[0, 1]`, for any audio, sample rate, word
timings and frame rate. -/
theorem process_audio_bounded (audio : List ℝ) (sr : ℕ)
    (wts : List (WordTiming ℝ)) (fps : ℕ) :
    List.Forall FrameBounded (LipSync.process_audio audio sr wts fps) := by
  rw [List.forall_iff_forall_mem]
  intro f hf
  unfold LipSync.process_audio at hf
  refine smooth_frames_bounded _ fps ?_ f hf
  intro f' hf'
  obtain ⟨idx, _, hmk⟩ := List.mem_map.mp hf'
  rw [← hmk]
  refine ⟨get_viseme_at_time_intensity_bounds wts _, fun ch => ?_⟩
  exact calculate_blend_shapes_bounds _ _ _
    (get_viseme_at_time_intensity_bounds wts _).1
    (get_viseme_at_time_intensity_bounds wts _).2
    (get_amplitude_at_time_bounds audio _ _ sr).1
    (get_amplitude_at_time_bounds audio _ _ sr).2 ch
